import Mathlib

set_option maxRecDepth 8000

namespace CCWrapper

/-! Embedding of the `CCWrapper` repository's `CommonCryptorSPI.h` surface.
The header declares a private-SPI cryptor interface: block-level tweaked
encrypt/decrypt (`CCCryptorEncryptDataBlock` / `CCCryptorDecryptDataBlock`),
GCM finalize/reset (`CCCryptorGCMFinalize` / `CCCryptorGCMReset`) and a generic
parameter protocol (`CCCryptorAddParameter` / `CCCryptorGetParameter`), plus
the private mode, direction and parameter enumerations.  The header contains
no function bodies, so the behavioural definitions below are modelled from the
repository's specification of the AuthenticatedTweakableCryptor component;
the numeric constants are translated directly from the header text. -/

/-- Private mode constant `kCCModeXTS = 8` from the header's private-modes
enumeration. -/
def kCCModeXTS : Nat := 8

/-- Private mode constant `kCCModeGCM = 11` from the header's private-modes
enumeration. -/
def kCCModeGCM : Nat := 11

/-- Private mode constant `kCCModeCCM = 12` from the header's private-modes
enumeration. -/
def kCCModeCCM : Nat := 12

/-- Private cryptor direction constant `kCCBoth = 3` from the header. -/
def kCCBoth : Nat := 3

/-- The header declares `typedef uint32_t CCParameter;` — a 32-bit unsigned
integer type. -/
abbrev CCParameter : Type := Fin 4294967296

/-- First enumerator of the anonymous `CCParameter` enumeration; the header
gives it no explicit value, so by C rules it is 0. -/
def kCCParameterIV : CCParameter := 0

/-- Second enumerator of the `CCParameter` enumeration (C default value 1). -/
def kCCParameterAuthData : CCParameter := 1

/-- Third enumerator of the `CCParameter` enumeration (C default value 2). -/
def kCCMacSize : CCParameter := 2

/-- Fourth enumerator of the `CCParameter` enumeration (C default value 3). -/
def kCCDataSize : CCParameter := 3

/-- Fifth enumerator of the `CCParameter` enumeration (C default value 4). -/
def kCCParameterAuthTag : CCParameter := 4

/-- Modelled from the spec: the modes named by the header's private-mode
enumeration (XTS, GCM, CCM); the implementation behind them is absent from
the repository. -/
inductive Mode where
  | xts
  | gcm
  | ccm
deriving DecidableEq

/-- Numeric code of a mode, as fixed by the header's enumeration. -/
def Mode.code : Mode → Nat
  | .xts => kCCModeXTS
  | .gcm => kCCModeGCM
  | .ccm => kCCModeCCM

/-- Whether the mode is an authenticated (AEAD) mode. -/
def Mode.isAEAD : Mode → Bool
  | .xts => false
  | .gcm => true
  | .ccm => true

/-- Modelled from the spec: cryptor direction (Encrypt, Decrypt, or Both). -/
inductive Direction where
  | encrypt
  | decrypt
  | both
deriving DecidableEq

/-- Modelled from the spec: the call-sequence phase of the cryptor state
machine (Initialized, ParametersAccepted, Processing, Finalized); the state
machine itself is documented only in comments of the header and has no
implementation in the repository. -/
inductive Phase where
  | initialized
  | paramsAccepted
  | processing
  | finalized
deriving DecidableEq

/-- Status codes of the shared `CCCryptorStatus` enumeration, as named by the
spec (the enumeration's definition lives outside the repository). -/
inductive Status where
  | success
  | paramError
  | unimplemented
  | bufferTooSmall
  | callSequenceError
  | authenticationFailure
  | decodeError
deriving DecidableEq

/-- Modelled from the spec: the cryptor state behind a `CCCryptorRef`.  The
implementation is absent from the repository; fields follow the spec's data
model — fixed mode/direction/key, a phase, accumulated IV and AAD, the
processed-data (ciphertext) accumulation used by the tag, the MacSize/DataSize
scalar hints, and the authentication-tag buffer. -/
structure Cryptor where
  mode : Mode
  direction : Direction
  key : List Nat
  phase : Phase
  iv : List Nat
  aad : List Nat
  processed : List Nat
  macSize : Option Nat
  dataSize : Option Nat
  tagBuf : List Nat
deriving DecidableEq

/-- Modelled from the spec: the state `CCCryptorCreateWithMode` (external
collaborator, absent from the repository) leaves a fresh cryptor in — phase
Initialized, empty accumulators, key material installed. -/
def createWithMode (m : Mode) (d : Direction) (key : List Nat) : Cryptor :=
  { mode := m
    direction := d
    key := key
    phase := Phase.initialized
    iv := []
    aad := []
    processed := []
    macSize := none
    dataSize := none
    tagBuf := [] }

/-- Map a function over a list together with a running index starting at `j`. -/
def mapWithIdx (f : Nat → Nat → Nat) : Nat → List Nat → List Nat
  | _, [] => []
  | j, x :: xs => f j x :: mapWithIdx f (j + 1) xs

theorem mapWithIdx_length (f : Nat → Nat → Nat) :
    ∀ (j : Nat) (l : List Nat), (mapWithIdx f j l).length = l.length := by
  intro j l
  induction l generalizing j with
  | nil => rfl
  | cons x xs ih => simp [mapWithIdx, ih]

theorem mapWithIdx_mem_lt (f : Nat → Nat → Nat)
    (hf : ∀ j x, x < 256 → f j x < 256) :
    ∀ (j : Nat) (l : List Nat), (∀ v ∈ l, v < 256) →
      ∀ y ∈ mapWithIdx f j l, y < 256 := by
  intro j l
  induction l generalizing j with
  | nil => intro _ y hy; simp [mapWithIdx] at hy
  | cons x xs ih =>
    intro hl y hy
    simp only [mapWithIdx, List.mem_cons] at hy
    rcases hy with h | h
    · exact h ▸ hf j x (hl x (List.mem_cons_self x xs))
    · exact ih (j + 1) (fun v hv => hl v (List.mem_cons_of_mem x hv)) y h

theorem mapWithIdx_inv (f g : Nat → Nat → Nat)
    (h : ∀ j x, x < 256 → g j (f j x) = x) :
    ∀ (j : Nat) (l : List Nat), (∀ b ∈ l, b < 256) →
      mapWithIdx g j (mapWithIdx f j l) = l := by
  intro j l
  induction l generalizing j with
  | nil => intro _; rfl
  | cons x xs ih =>
    intro hb
    have hx : x < 256 := hb x (List.mem_cons_self x xs)
    have hxs : ∀ b ∈ xs, b < 256 := fun b hbmem => hb b (List.mem_cons_of_mem x hbmem)
    simp [mapWithIdx, h j x hx, ih (j + 1) hxs]

/-- Modelled from the spec: the per-byte keystream of the tweaked-block
transform used by `CCCryptorEncryptDataBlock`/`CCCryptorDecryptDataBlock`
(the cipher core itself is absent from the repository); it mixes key byte,
IV (tweak) byte and position, and is always a byte. -/
def xtsKs (key iv : List Nat) (j : Nat) : Nat :=
  (key.getD (j % max 1 key.length) 0 + iv.getD (j % 16) 0 + j) % 256

theorem xtsKs_lt (key iv : List Nat) (j : Nat) : xtsKs key iv j < 256 :=
  Nat.mod_lt _ (by decide)

/-- Modelled from the spec: forward byte transform of the tweaked block path. -/
def xtsEncByte (key iv : List Nat) (j x : Nat) : Nat :=
  (x + xtsKs key iv j) % 256

/-- Modelled from the spec: inverse byte transform of the tweaked block path. -/
def xtsDecByte (key iv : List Nat) (j y : Nat) : Nat :=
  (y + 256 - xtsKs key iv j) % 256

theorem xtsDecByte_encByte (key iv : List Nat) (j x : Nat) (hx : x < 256) :
    xtsDecByte key iv j (xtsEncByte key iv j x) = x := by
  have hks : xtsKs key iv j < 256 := xtsKs_lt key iv j
  unfold xtsDecByte xtsEncByte
  omega

/-- The block size (in bytes) required of the per-call IV and of data
alignment for the tweaked block operations. -/
def blockSize : Nat := 16

/-- Modelled from the spec: `CCCryptorEncryptDataBlock` — single-shot tweaked
block encryption with an explicit per-call IV; its implementation is absent
from the repository.  Signals Unimplemented for a non-tweakable mode,
CallSequenceError from the Finalized phase, ParamError for zero or unaligned
data length or a wrongly sized IV; on success writes the whole output and
only records call-sequence progress in the cryptor. -/
def encryptDataBlock (c : Cryptor) (iv dataIn : List Nat) :
    Status × List Nat × Cryptor :=
  if c.mode ≠ Mode.xts then (Status.unimplemented, [], c)
  else if c.phase = Phase.finalized then (Status.callSequenceError, [], c)
  else if dataIn.length = 0 ∨ dataIn.length % blockSize ≠ 0 then
    (Status.paramError, [], c)
  else if iv.length ≠ blockSize then (Status.paramError, [], c)
  else
    (Status.success, mapWithIdx (xtsEncByte c.key iv) 0 dataIn,
      { c with phase := Phase.processing })

/-- Modelled from the spec: `CCCryptorDecryptDataBlock` — single-shot tweaked
block decryption with an explicit per-call IV; the exact inverse of
`encryptDataBlock`, with the same error conditions. -/
def decryptDataBlock (c : Cryptor) (iv dataIn : List Nat) :
    Status × List Nat × Cryptor :=
  if c.mode ≠ Mode.xts then (Status.unimplemented, [], c)
  else if c.phase = Phase.finalized then (Status.callSequenceError, [], c)
  else if dataIn.length = 0 ∨ dataIn.length % blockSize ≠ 0 then
    (Status.paramError, [], c)
  else if iv.length ≠ blockSize then (Status.paramError, [], c)
  else
    (Status.success, mapWithIdx (xtsDecByte c.key iv) 0 dataIn,
      { c with phase := Phase.processing })

/-- Modelled from the spec: the dedicated constant-time comparison routine
used by `CCCryptorGCMFinalize` on decrypt (its implementation is absent from
the repository).  It walks both buffers to the end accumulating the XOR
difference of every byte pair, never stopping at the first mismatch; the
result records the accumulated difference and the number of byte steps
performed. -/
def ctDiffSteps : List Nat → List Nat → Nat × Nat
  | x :: xs, y :: ys =>
    let r := ctDiffSteps xs ys
    ((x ^^^ y) + r.1, r.2 + 1)
  | _, _ => (0, 0)

/-- Modelled from the spec: constant-time buffer equality — equal lengths and
a zero accumulated difference. -/
def constTimeEq (a b : List Nat) : Bool :=
  a.length == b.length && (ctDiffSteps a b).1 == 0

theorem ctDiffSteps_steps :
    ∀ a b : List Nat, (ctDiffSteps a b).2 = min a.length b.length := by
  intro a
  induction a with
  | nil => intro b; cases b <;> simp [ctDiffSteps]
  | cons x xs ih =>
    intro b
    cases b with
    | nil => simp [ctDiffSteps]
    | cons y ys =>
      simp only [ctDiffSteps, ih ys, List.length_cons]
      omega

theorem constTimeEq_iff (a b : List Nat) : constTimeEq a b = true ↔ a = b := by
  induction a generalizing b with
  | nil =>
    cases b with
    | nil => simp [constTimeEq, ctDiffSteps]
    | cons y ys => simp [constTimeEq]
  | cons x xs ih =>
    cases b with
    | nil => simp [constTimeEq]
    | cons y ys =>
      have hx : x ^^^ y = 0 ↔ x = y := Nat.xor_eq_zero
      have hrec := ih ys
      simp only [constTimeEq, ctDiffSteps, List.length_cons, Nat.beq_eq_true_eq,
        Bool.and_eq_true, List.cons.injEq] at *
      constructor
      · rintro ⟨hlen, hsum⟩
        have h1 : x ^^^ y = 0 := by omega
        have h2 : (ctDiffSteps xs ys).1 = 0 := by omega
        exact ⟨hx.mp h1, hrec.mp ⟨by omega, h2⟩⟩
      · rintro ⟨rfl, rfl⟩
        have := hrec.mpr rfl
        refine ⟨by omega, ?_⟩
        have h0 : x ^^^ x = 0 := Nat.xor_eq_zero.mpr rfl
        omega

theorem constTimeEq_self (a : List Nat) : constTimeEq a a = true :=
  (constTimeEq_iff a a).mpr rfl

/-- Little-endian serialization of a natural number into exactly `n` bytes. -/
def natToBytes : Nat → Nat → List Nat
  | 0, _ => []
  | n + 1, v => v % 256 :: natToBytes n (v / 256)

theorem natToBytes_length (n v : Nat) : (natToBytes n v).length = n := by
  induction n generalizing v with
  | zero => rfl
  | succ m ih => simp [natToBytes, ih]

theorem natToBytes_mem_lt (n v : Nat) : ∀ y ∈ natToBytes n v, y < 256 := by
  induction n generalizing v with
  | zero => intro y hy; simp [natToBytes] at hy
  | succ m ih =>
    intro y hy
    simp only [natToBytes, List.mem_cons] at hy
    rcases hy with h | h
    · omega
    · exact ih (v / 256) y h

theorem natToBytes_injOn (n : Nat) :
    ∀ v w : Nat, v < 256 ^ n → w < 256 ^ n →
      natToBytes n v = natToBytes n w → v = w := by
  induction n with
  | zero => intro v w hv hw _; simp [pow_zero] at hv hw; omega
  | succ m ih =>
    intro v w hv hw h
    simp only [natToBytes, List.cons.injEq] at h
    obtain ⟨h1, h2⟩ := h
    have hv' : v / 256 < 256 ^ m := by
      have : (256 : Nat) ^ (m + 1) = 256 ^ m * 256 := by ring
      rw [this] at hv
      exact Nat.div_lt_of_lt_mul (by omega)
    have hw' : w / 256 < 256 ^ m := by
      have : (256 : Nat) ^ (m + 1) = 256 ^ m * 256 := by ring
      rw [this] at hw
      exact Nat.div_lt_of_lt_mul (by omega)
    have h3 := ih (v / 256) (w / 256) hv' hw' h2
    omega

/-- The prime modulus of the modelled tag-compression function (65521 is
prime). -/
def tagPrime : Nat := 65521

instance : Fact (Nat.Prime tagPrime) := ⟨by unfold tagPrime; norm_num⟩

/-- Modelled from the spec: the polynomial compression at the heart of the
modelled tag computation of `CCCryptorGCMFinalize` (the real GHASH core is
absent from the repository).  A byte list is read as a polynomial in 257
evaluated over the field with `tagPrime` elements. -/
def encodeZ : List Nat → ZMod tagPrime
  | [] => 0
  | b :: rest => (b : ZMod tagPrime) + 257 * encodeZ rest

theorem encodeZ_append (l1 l2 : List Nat) :
    encodeZ (l1 ++ l2) = encodeZ l1 + 257 ^ l1.length * encodeZ l2 := by
  induction l1 with
  | nil => simp [encodeZ]
  | cons x xs ih =>
    rw [List.cons_append]
    rw [show encodeZ (x :: (xs ++ l2)) = (x : ZMod tagPrime) + 257 * encodeZ (xs ++ l2) from rfl]
    rw [ih]
    rw [show encodeZ (x :: xs) = (x : ZMod tagPrime) + 257 * encodeZ xs from rfl]
    rw [List.length_cons]
    ring

theorem encodeZ_flip_ne (pre post : List Nat) (x y : Nat)
    (hx : x < 256) (hy : y < 256) (hxy : x ≠ y) :
    encodeZ (pre ++ x :: post) ≠ encodeZ (pre ++ y :: post) := by
  intro h
  rw [encodeZ_append, encodeZ_append] at h
  simp only [encodeZ] at h
  have h257 : (257 : ZMod tagPrime) ≠ 0 := by decide
  have hpow : (257 : ZMod tagPrime) ^ pre.length ≠ 0 := pow_ne_zero _ h257
  have h1 : (257 : ZMod tagPrime) ^ pre.length * ((x : ZMod tagPrime) + 257 * encodeZ post)
      = 257 ^ pre.length * ((y : ZMod tagPrime) + 257 * encodeZ post) :=
    add_left_cancel h
  have h2 := mul_left_cancel₀ hpow h1
  have hcast : (x : ZMod tagPrime) = (y : ZMod tagPrime) := add_right_cancel h2
  have hvx : ((x : ZMod tagPrime)).val = x :=
    ZMod.val_natCast_of_lt (by unfold tagPrime; omega)
  have hvy : ((y : ZMod tagPrime)).val = y :=
    ZMod.val_natCast_of_lt (by unfold tagPrime; omega)
  exact hxy (by rw [← hvx, ← hvy, hcast])

/-- Modelled from the spec: the authenticated transcript the GCM tag covers —
accumulated AAD, processed ciphertext, the two lengths, the accumulated IV and
the key material (the real GHASH transcript construction is absent from the
repository). -/
def tagTranscript (key iv aad ct : List Nat) : List Nat :=
  aad ++ (ct ++ (natToBytes 8 aad.length ++ (natToBytes 8 ct.length ++ (iv ++ key))))

/-- Modelled from the spec: the tag bytes produced over a transcript —
the polynomial compression serialized little-endian into `tagLen` bytes. -/
def gcmTag (key iv aad ct : List Nat) (tagLen : Nat) : List Nat :=
  natToBytes tagLen (encodeZ (tagTranscript key iv aad ct)).val

/-- Modelled from the spec: the tag `CCCryptorGCMFinalize` computes from the
cryptor's accumulated state. -/
def computeTag (c : Cryptor) (tagLen : Nat) : List Nat :=
  gcmTag c.key c.iv c.aad c.processed tagLen

/-- Modelled from the spec: the per-byte CTR-style keystream of the modelled
GCM data path (the block-cipher core is absent from the repository); always a
byte, and common to encryption and decryption. -/
def gcmKsByte (key iv : List Nat) (j : Nat) : Nat :=
  (key.getD (j % max 1 key.length) 0 + iv.getD (j % max 1 iv.length) 0 + j) % 256

theorem gcmKsByte_lt (key iv : List Nat) (j : Nat) : gcmKsByte key iv j < 256 :=
  Nat.mod_lt _ (by decide)

/-- Which input parameters `CCCryptorAddParameter` supports for each mode:
IV and AAD for GCM; IV, AAD, MacSize and DataSize for CCM; none for XTS
(its IV travels with each block call); the AuthTag parameter is output-only
and never addable.  Modelled from the spec and the header's per-parameter
comments. -/
def addParamSupported : Mode → CCParameter → Bool
  | Mode.gcm, p => p == kCCParameterIV || p == kCCParameterAuthData
  | Mode.ccm, p =>
    p == kCCParameterIV || p == kCCParameterAuthData ||
      p == kCCMacSize || p == kCCDataSize
  | Mode.xts, _ => false

/-- Modelled from the spec: `CCCryptorAddParameter` — refuses a parameter the
active mode does not support at all with Unimplemented, refuses a supported
parameter arriving after processing has started with CallSequenceError (both
leaving the state untouched), and otherwise accumulates IV/AAD bytes or
records the MacSize/DataSize scalar hints. -/
def addParameter (c : Cryptor) (p : CCParameter) (data : List Nat) :
    Status × Cryptor :=
  if addParamSupported c.mode p = false then (Status.unimplemented, c)
  else if c.phase = Phase.processing ∨ c.phase = Phase.finalized then
    (Status.callSequenceError, c)
  else if p == kCCParameterIV then
    (Status.success, { c with iv := c.iv ++ data, phase := Phase.paramsAccepted })
  else if p == kCCParameterAuthData then
    (Status.success, { c with aad := c.aad ++ data, phase := Phase.paramsAccepted })
  else if p == kCCMacSize then
    (Status.success, { c with macSize := some (data.getD 0 0), phase := Phase.paramsAccepted })
  else
    (Status.success, { c with dataSize := some (data.getD 0 0), phase := Phase.paramsAccepted })

/-- Modelled from the spec: `CCCryptorGetParameter` — only the AuthTag
parameter is retrievable, only for an AEAD cryptor that is not decrypting and
has finalized; a too-small caller capacity yields BufferTooSmall with the
required size written back and the data buffer untouched. -/
def getParameter (c : Cryptor) (p : CCParameter) (data : List Nat) (size : Nat) :
    Status × List Nat × Nat :=
  if p ≠ kCCParameterAuthTag then (Status.unimplemented, data, size)
  else if c.mode.isAEAD = false ∨ c.direction = Direction.decrypt ∨
      c.phase ≠ Phase.finalized then
    (Status.unimplemented, data, size)
  else if size < c.tagBuf.length then (Status.bufferTooSmall, data, c.tagBuf.length)
  else (Status.success, c.tagBuf, c.tagBuf.length)

/-- Modelled from the spec: the AEAD data path (`CCCryptorUpdate` of the
external interface, absent from the repository) — XORs the running keystream
into the data, appends the resulting ciphertext to the processed accumulation
and moves the cryptor into the Processing phase. -/
def gcmUpdate (c : Cryptor) (dataIn : List Nat) : Status × List Nat × Cryptor :=
  if c.mode.isAEAD = false then (Status.unimplemented, [], c)
  else if c.phase = Phase.finalized then (Status.callSequenceError, [], c)
  else
    let out := mapWithIdx (fun j x => x ^^^ gcmKsByte c.key c.iv j)
      c.processed.length dataIn
    let ct := if c.direction = Direction.decrypt then dataIn else out
    (Status.success, out,
      { c with processed := c.processed ++ ct, phase := Phase.processing })

/-- Modelled from the spec: `CCCryptorGCMFinalize` — on encrypt computes and
returns the tag; on decrypt compares the computed tag against the
caller-supplied tag with the constant-time routine, leaving the caller's
buffer untouched, and fails with the authentication-failure status on
mismatch; transitions to Finalized regardless of the outcome. -/
def gcmFinalize (c : Cryptor) (tag : List Nat) (tagLen : Nat) :
    Status × List Nat × Cryptor :=
  if c.mode ≠ Mode.gcm then (Status.unimplemented, tag, c)
  else if c.phase = Phase.finalized then (Status.callSequenceError, tag, c)
  else if tagLen < 12 ∨ 16 < tagLen then (Status.paramError, tag, c)
  else if c.direction = Direction.decrypt then
    ((if constTimeEq (computeTag c tagLen) tag then Status.success
      else Status.authenticationFailure), tag, { c with phase := Phase.finalized })
  else
    (Status.success, computeTag c tagLen,
      { c with phase := Phase.finalized, tagBuf := computeTag c tagLen })

/-- Modelled from the spec: `CCCryptorGCMReset` — for an AEAD cryptor returns
the state `CCCryptorCreateWithMode` left it in, keeping only mode, direction
and key material; Unimplemented for non-AEAD modes. -/
def gcmReset (c : Cryptor) : Status × Cryptor :=
  if c.mode.isAEAD = false then (Status.unimplemented, c)
  else (Status.success, createWithMode c.mode c.direction c.key)

/-- Modelled from the spec: the canonical AEAD call sequence from a starting
state — add IV, add AAD, process the data, finalize with the supplied tag
buffer.  Returns the four statuses, the data output, the tag buffer after the
finalize call and the final cryptor. -/
def runGcmSequence (c0 : Cryptor) (iv aad dataIn tagArg : List Nat)
    (tagLen : Nat) :
    (Status × Status × Status × Status) × List Nat × List Nat × Cryptor :=
  let r1 := addParameter c0 kCCParameterIV iv
  let r2 := addParameter r1.2 kCCParameterAuthData aad
  let r3 := gcmUpdate r2.2 dataIn
  let r4 := gcmFinalize r3.2.2 tagArg tagLen
  ((r1.1, r2.1, r3.1, r4.1), r3.2.1, r4.2.1, r4.2.2)

/-- Modelled from the spec: the full AEAD encrypt sequence on a freshly
created encrypt cryptor; the supplied tag buffer starts zeroed and is
overwritten with the produced tag. -/
def gcmEncrypt (key iv aad pt : List Nat) (tagLen : Nat) :
    (Status × Status × Status × Status) × List Nat × List Nat × Cryptor :=
  runGcmSequence (createWithMode Mode.gcm Direction.encrypt key) iv aad pt
    (List.replicate tagLen 0) tagLen

/-- Modelled from the spec: the matching AEAD decrypt sequence on a freshly
created decrypt cryptor, finalized against the caller-supplied expected tag;
the result is the finalize status. -/
def gcmDecryptVerify (key iv aad ct tag : List Nat) (tagLen : Nat) : Status :=
  (runGcmSequence (createWithMode Mode.gcm Direction.decrypt key) iv aad ct
    tag tagLen).1.2.2.2

/-- The ciphertext bytes the modelled encrypt data path produces from the
start of the stream. -/
def gcmCtBytes (key iv pt : List Nat) : List Nat :=
  mapWithIdx (fun j x => x ^^^ gcmKsByte key iv j) 0 pt

/-- Flip bit `b` of the byte at position `i`. -/
def flipBit (l : List Nat) (i b : Nat) : List Nat :=
  l.set i (l.getD i 0 ^^^ 2 ^ b)

theorem gcmEncrypt_eval (key iv aad pt : List Nat) (tagLen : Nat)
    (h12 : 12 ≤ tagLen) (h16 : tagLen ≤ 16) :
    gcmEncrypt key iv aad pt tagLen =
      ((Status.success, Status.success, Status.success, Status.success),
        gcmCtBytes key iv pt,
        gcmTag key iv aad (gcmCtBytes key iv pt) tagLen,
        { mode := Mode.gcm, direction := Direction.encrypt, key := key,
          phase := Phase.finalized, iv := iv, aad := aad,
          processed := gcmCtBytes key iv pt, macSize := none, dataSize := none,
          tagBuf := gcmTag key iv aad (gcmCtBytes key iv pt) tagLen }) := by
  have ht : ¬(tagLen < 12 ∨ 16 < tagLen) := by omega
  have hne : kCCParameterAuthData ≠ kCCParameterIV := by decide
  simp [gcmEncrypt, runGcmSequence, addParameter, addParamSupported, gcmUpdate,
    gcmFinalize, createWithMode, computeTag, gcmCtBytes, gcmTag, Mode.isAEAD, ht, hne]

theorem gcmDecryptVerify_eval (key iv aad ct tag : List Nat) (tagLen : Nat)
    (h12 : 12 ≤ tagLen) (h16 : tagLen ≤ 16) :
    gcmDecryptVerify key iv aad ct tag tagLen =
      (if constTimeEq (gcmTag key iv aad ct tagLen) tag then Status.success
       else Status.authenticationFailure) := by
  have ht : ¬(tagLen < 12 ∨ 16 < tagLen) := by omega
  have hne : kCCParameterAuthData ≠ kCCParameterIV := by decide
  simp [gcmDecryptVerify, runGcmSequence, addParameter, addParamSupported,
    gcmUpdate, gcmFinalize, createWithMode, computeTag, gcmTag, Mode.isAEAD, ht, hne]

theorem flipBit_length (l : List Nat) (i b : Nat) :
    (flipBit l i b).length = l.length := List.length_set l i _

theorem xor_pow2_ne (x b : Nat) : x ^^^ 2 ^ b ≠ x := by
  intro h
  have h2 : (2 : Nat) ^ b ≠ 0 := by positivity
  have hx : (x ^^^ 2 ^ b) ^^^ x = 0 := Nat.xor_eq_zero.mpr h
  rw [Nat.xor_comm x (2 ^ b), Nat.xor_assoc, Nat.xor_self, Nat.xor_zero] at hx
  exact h2 hx

theorem xor_pow2_lt (x b : Nat) (hx : x < 256) (hb : b < 8) :
    x ^^^ 2 ^ b < 256 := by
  have h1 : x < 2 ^ 8 := hx
  have h2 : 2 ^ b < 2 ^ 8 := Nat.pow_lt_pow_right (by omega) hb
  exact Nat.xor_lt_two_pow h1 h2

theorem flipBit_ne (l : List Nat) (i b : Nat) (h : i < l.length) :
    flipBit l i b ≠ l := by
  intro heq
  have hlen : i < (flipBit l i b).length := by rw [flipBit_length]; exact h
  have h1 : (flipBit l i b)[i] = l.getD i 0 ^^^ 2 ^ b := by
    simp [flipBit, List.getElem_set_self]
  have h2 : (flipBit l i b)[i] = l[i] := by
    congr 1
  rw [h2, List.getD_eq_getElem l 0 h] at h1
  exact xor_pow2_ne (l[i]) b h1.symm

theorem flipBit_eq_take_cons_drop (l : List Nat) (i b : Nat) (h : i < l.length) :
    flipBit l i b = l.take i ++ (l[i] ^^^ 2 ^ b) :: l.drop (i + 1) := by
  rw [flipBit, List.getD_eq_getElem l 0 h, List.set_eq_take_append_cons_drop,
    if_pos h]

theorem eq_take_cons_drop (l : List Nat) (i : Nat) (h : i < l.length) :
    l = l.take i ++ l[i] :: l.drop (i + 1) := by
  conv_lhs => rw [← List.take_append_drop i l]
  rw [List.drop_eq_getElem_cons h]

theorem gcmTag_ne_of_encode_ne (key iv : List Nat) (aad1 ct1 aad2 ct2 : List Nat)
    (tagLen : Nat) (h2 : 2 ≤ tagLen)
    (h : encodeZ (tagTranscript key iv aad1 ct1) ≠
      encodeZ (tagTranscript key iv aad2 ct2)) :
    gcmTag key iv aad1 ct1 tagLen ≠ gcmTag key iv aad2 ct2 tagLen := by
  intro heq
  have hb : (65521 : Nat) ≤ 256 ^ tagLen := by
    calc (65521 : Nat) ≤ 256 ^ 2 := by norm_num
    _ ≤ 256 ^ tagLen := Nat.pow_le_pow_right (by omega) h2
  have hv1 : (encodeZ (tagTranscript key iv aad1 ct1)).val < 256 ^ tagLen := by
    have := ZMod.val_lt (encodeZ (tagTranscript key iv aad1 ct1))
    unfold tagPrime at this
    omega
  have hv2 : (encodeZ (tagTranscript key iv aad2 ct2)).val < 256 ^ tagLen := by
    have := ZMod.val_lt (encodeZ (tagTranscript key iv aad2 ct2))
    unfold tagPrime at this
    omega
  have hval := natToBytes_injOn tagLen _ _ hv1 hv2 heq
  exact h (ZMod.val_injective _ hval)

theorem append_take_cons_drop (l r : List Nat) (i : Nat) (h : i < l.length) :
    l ++ r = l.take i ++ l[i] :: (l.drop (i + 1) ++ r) := by
  nth_rewrite 1 [eq_take_cons_drop l i h]
  rw [List.append_assoc, List.cons_append]

theorem gcmTag_flip_aad_ne (key iv aad ct : List Nat) (tagLen i b : Nat)
    (haad : ∀ v ∈ aad, v < 256) (hi : i < aad.length) (hb : b < 8)
    (h2 : 2 ≤ tagLen) :
    gcmTag key iv (flipBit aad i b) ct tagLen ≠ gcmTag key iv aad ct tagLen := by
  have hx : aad[i] < 256 := haad _ (List.getElem_mem hi)
  have hy : aad[i] ^^^ 2 ^ b < 256 := xor_pow2_lt _ b hx hb
  have hxy : aad[i] ^^^ 2 ^ b ≠ aad[i] := xor_pow2_ne _ b
  apply gcmTag_ne_of_encode_ne key iv _ _ _ _ tagLen h2
  have e1 : tagTranscript key iv (flipBit aad i b) ct =
      aad.take i ++ (aad[i] ^^^ 2 ^ b) ::
        (aad.drop (i + 1) ++ (ct ++ (natToBytes 8 aad.length ++
          (natToBytes 8 ct.length ++ (iv ++ key))))) := by
    unfold tagTranscript
    rw [flipBit_length, flipBit_eq_take_cons_drop aad i b hi,
      List.append_assoc, List.cons_append]
  have e2 : tagTranscript key iv aad ct =
      aad.take i ++ (aad[i]) ::
        (aad.drop (i + 1) ++ (ct ++ (natToBytes 8 aad.length ++
          (natToBytes 8 ct.length ++ (iv ++ key))))) := by
    unfold tagTranscript
    exact append_take_cons_drop aad _ i hi
  rw [e1, e2]
  exact encodeZ_flip_ne _ _ _ _ hy hx hxy

theorem gcmTag_flip_ct_ne (key iv aad ct : List Nat) (tagLen i b : Nat)
    (hct : ∀ v ∈ ct, v < 256) (hi : i < ct.length) (hb : b < 8)
    (h2 : 2 ≤ tagLen) :
    gcmTag key iv aad (flipBit ct i b) tagLen ≠ gcmTag key iv aad ct tagLen := by
  have hx : ct[i] < 256 := hct _ (List.getElem_mem hi)
  have hy : ct[i] ^^^ 2 ^ b < 256 := xor_pow2_lt _ b hx hb
  have hxy : ct[i] ^^^ 2 ^ b ≠ ct[i] := xor_pow2_ne _ b
  apply gcmTag_ne_of_encode_ne key iv _ _ _ _ tagLen h2
  have e1 : tagTranscript key iv aad (flipBit ct i b) =
      (aad ++ ct.take i) ++ (ct[i] ^^^ 2 ^ b) ::
        (ct.drop (i + 1) ++ (natToBytes 8 aad.length ++
          (natToBytes 8 ct.length ++ (iv ++ key)))) := by
    unfold tagTranscript
    rw [flipBit_length, flipBit_eq_take_cons_drop ct i b hi,
      List.append_assoc (ct.take i), List.cons_append, ← List.append_assoc aad]
  have e2 : tagTranscript key iv aad ct =
      (aad ++ ct.take i) ++ (ct[i]) ::
        (ct.drop (i + 1) ++ (natToBytes 8 aad.length ++
          (natToBytes 8 ct.length ++ (iv ++ key)))) := by
    unfold tagTranscript
    rw [append_take_cons_drop ct _ i hi, ← List.append_assoc aad]
  rw [e1, e2]
  exact encodeZ_flip_ne _ _ _ _ hy hx hxy

theorem constTimeEq_false_of_ne (a b : List Nat) (h : a ≠ b) :
    constTimeEq a b = false := by
  cases hEq : constTimeEq a b
  · rfl
  · exact absurd ((constTimeEq_iff a b).mp hEq) h

theorem xor_byte_lt (x y : Nat) (hx : x < 256) (hy : y < 256) :
    x ^^^ y < 256 := by
  have h1 : x < 2 ^ 8 := by simpa using hx
  have h2 : y < 2 ^ 8 := by simpa using hy
  simpa using Nat.xor_lt_two_pow h1 h2

theorem gcmCtBytes_mem_lt (key iv pt : List Nat) (hpt : ∀ v ∈ pt, v < 256) :
    ∀ v ∈ gcmCtBytes key iv pt, v < 256 := by
  unfold gcmCtBytes
  exact mapWithIdx_mem_lt _
    (fun j x hx => xor_byte_lt x _ hx (gcmKsByte_lt key iv j)) 0 pt hpt

theorem gcmCtBytes_length (key iv pt : List Nat) :
    (gcmCtBytes key iv pt).length = pt.length := mapWithIdx_length _ 0 pt

/-- C10: the header's private enumerations fix exact numeric constants —
kCCModeXTS = 8, kCCModeGCM = 11, kCCModeCCM = 12, kCCBoth = 3, and the
CCParameter tags take the consecutive values 0,1,2,3,4 with CCParameter a
32-bit unsigned integer type. -/
theorem headerConstants_exact :
    kCCModeXTS = 8 ∧ kCCModeGCM = 11 ∧ kCCModeCCM = 12 ∧ kCCBoth = 3 ∧
    kCCParameterIV = (0 : CCParameter) ∧
    kCCParameterAuthData = (1 : CCParameter) ∧
    kCCMacSize = (2 : CCParameter) ∧
    kCCDataSize = (3 : CCParameter) ∧
    kCCParameterAuthTag = (4 : CCParameter) ∧
    kCCParameterAuthData.val = kCCParameterIV.val + 1 ∧
    kCCMacSize.val = kCCParameterAuthData.val + 1 ∧
    kCCDataSize.val = kCCMacSize.val + 1 ∧
    kCCParameterAuthTag.val = kCCDataSize.val + 1 ∧
    Fintype.card CCParameter = 2 ^ 32 := by
  refine ⟨rfl, rfl, rfl, rfl, rfl, rfl, rfl, rfl, rfl, rfl, rfl, rfl, rfl, ?_⟩
  rw [show (2 : Nat) ^ 32 = 4294967296 from by norm_num]
  exact Fintype.card_fin 4294967296

/-- C1: for every valid (mode, direction, key) triple of a tweakable mode (the
XTS private mode, any direction, any key) and every nonempty block-aligned
byte plaintext, EncryptDataBlock followed by DecryptDataBlock on the resulting
ciphertext with the same block-sized IV succeeds and returns the original
plaintext exactly (round-trip law). -/
theorem encryptDataBlock_decryptDataBlock_roundtrip
    (d : Direction) (key iv pt : List Nat)
    (hpt : ∀ v ∈ pt, v < 256) (hne : pt.length ≠ 0)
    (hal : pt.length % blockSize = 0) (hiv : iv.length = blockSize) :
    (encryptDataBlock (createWithMode Mode.xts d key) iv pt).1 = Status.success ∧
    (decryptDataBlock (encryptDataBlock (createWithMode Mode.xts d key) iv pt).2.2
      iv (encryptDataBlock (createWithMode Mode.xts d key) iv pt).2.1).1 =
      Status.success ∧
    (decryptDataBlock (encryptDataBlock (createWithMode Mode.xts d key) iv pt).2.2
      iv (encryptDataBlock (createWithMode Mode.xts d key) iv pt).2.1).2.1 = pt := by
  have hct_len : (mapWithIdx (xtsEncByte key iv) 0 pt).length = pt.length :=
    mapWithIdx_length _ 0 pt
  have hnil : pt ≠ [] := by
    intro h
    rw [h] at hne
    exact hne rfl
  have hct_nil : mapWithIdx (xtsEncByte key iv) 0 pt ≠ [] := by
    intro h
    rw [h] at hct_len
    exact hne hct_len.symm
  have hct_mod : (mapWithIdx (xtsEncByte key iv) 0 pt).length % blockSize = 0 := by
    rw [hct_len]; exact hal
  have hinv : mapWithIdx (xtsDecByte key iv) 0 (mapWithIdx (xtsEncByte key iv) 0 pt) = pt :=
    mapWithIdx_inv _ _ (fun j x hx => xtsDecByte_encByte key iv j x hx) 0 pt hpt
  refine ⟨?_, ?_, ?_⟩ <;>
    simp [encryptDataBlock, decryptDataBlock, createWithMode, hnil, hct_nil,
      hal, hct_mod, hiv, hinv]

/-- Witness for C1 at direction Both, a concrete key and IV, and a two-block
plaintext. -/
theorem encryptDataBlock_decryptDataBlock_roundtrip_witness :
    (decryptDataBlock
      (encryptDataBlock (createWithMode Mode.xts Direction.both [7, 3])
        (List.replicate 16 1) (List.range 32)).2.2
      (List.replicate 16 1)
      (encryptDataBlock (createWithMode Mode.xts Direction.both [7, 3])
        (List.replicate 16 1) (List.range 32)).2.1).2.1 = List.range 32 :=
  (encryptDataBlock_decryptDataBlock_roundtrip Direction.both [7, 3]
    (List.replicate 16 1) (List.range 32) (by decide) (by decide) (by decide)
    (by decide)).2.2

/-- C2: for a GCM decrypt cryptor that can legally finalize, GCMFinalize with
a caller-supplied tag differing from the internally computed tag returns the
authentication-failure status — never success — and returns the caller's tag
buffer contents unmodified. -/
theorem gcmFinalize_decrypt_mismatch
    (c : Cryptor) (tag : List Nat) (tagLen : Nat)
    (hm : c.mode = Mode.gcm) (hd : c.direction = Direction.decrypt)
    (hp : c.phase ≠ Phase.finalized)
    (h12 : 12 ≤ tagLen) (h16 : tagLen ≤ 16)
    (hne : tag ≠ computeTag c tagLen) :
    (gcmFinalize c tag tagLen).1 = Status.authenticationFailure ∧
    (gcmFinalize c tag tagLen).1 ≠ Status.success ∧
    (gcmFinalize c tag tagLen).2.1 = tag := by
  have hct : constTimeEq (computeTag c tagLen) tag = false :=
    constTimeEq_false_of_ne _ _ (fun h => hne h.symm)
  have ht : ¬(tagLen < 12 ∨ 16 < tagLen) := by omega
  simp [gcmFinalize, hm, hd, hp, ht, hct]

/-- Witness for C2 on a fresh GCM decrypt cryptor and an all-zero 12-byte
tag that does not match the internally computed tag. -/
theorem gcmFinalize_decrypt_mismatch_witness :
    (gcmFinalize (createWithMode Mode.gcm Direction.decrypt [1])
      (List.replicate 12 0) 12).1 = Status.authenticationFailure ∧
    (gcmFinalize (createWithMode Mode.gcm Direction.decrypt [1])
      (List.replicate 12 0) 12).2.1 = List.replicate 12 0 :=
  ⟨(gcmFinalize_decrypt_mismatch (createWithMode Mode.gcm Direction.decrypt [1])
      (List.replicate 12 0) 12 rfl rfl (by decide) (by decide) (by decide)
      (by decide)).1,
    (gcmFinalize_decrypt_mismatch (createWithMode Mode.gcm Direction.decrypt [1])
      (List.replicate 12 0) 12 rfl rfl (by decide) (by decide) (by decide)
      (by decide)).2.2⟩

/-- C5: AddParameter with a parameter tag the active mode does not support
returns Unimplemented and leaves the cryptor state completely unchanged. -/
theorem addParameter_unsupported_noop
    (c : Cryptor) (p : CCParameter) (data : List Nat)
    (h : addParamSupported c.mode p = false) :
    addParameter c p data = (Status.unimplemented, c) := by
  simp [addParameter, h]

/-- Witness for C5: a MacSize parameter on a GCM cryptor is unsupported and
rejected without touching the state. -/
theorem addParameter_unsupported_noop_witness :
    addParameter (createWithMode Mode.gcm Direction.encrypt [1]) kCCMacSize [8] =
      (Status.unimplemented, createWithMode Mode.gcm Direction.encrypt [1]) :=
  addParameter_unsupported_noop (createWithMode Mode.gcm Direction.encrypt [1])
    kCCMacSize [8] (by decide)

/-- C7 counterexample: a GCM cryptor that has entered the Processing phase
answers a MacSize AddParameter call with Unimplemented, not CallSequenceError,
because mode support is checked before call sequencing — the claim's universal
CallSequenceError for all of IV/AAD/MacSize/DataSize is false as stated. -/
theorem addParameter_processing_counterexample :
    (gcmUpdate (createWithMode Mode.gcm Direction.encrypt [1]) [5]).2.2.phase =
      Phase.processing ∧
    (addParameter (gcmUpdate (createWithMode Mode.gcm Direction.encrypt [1])
      [5]).2.2 kCCMacSize [8]).1 = Status.unimplemented ∧
    (addParameter (gcmUpdate (createWithMode Mode.gcm Direction.encrypt [1])
      [5]).2.2 kCCMacSize [8]).1 ≠ Status.callSequenceError := by
  refine ⟨by decide, by decide, by decide⟩

/-- C7 (amended): once a cryptor is in the Processing phase, every
AddParameter call supplying a parameter the active mode supports (IV, AAD,
MacSize or DataSize, per the mode) is rejected with CallSequenceError and the
cryptor state is left unchanged. -/
theorem addParameter_processing_rejected
    (c : Cryptor) (p : CCParameter) (data : List Nat)
    (hp : c.phase = Phase.processing)
    (hs : addParamSupported c.mode p = true) :
    addParameter c p data = (Status.callSequenceError, c) := by
  simp [addParameter, hs, hp]

/-- Witness for the amended C7: AAD supplied after the first GCM data block
is rejected with CallSequenceError and without mutation. -/
theorem addParameter_processing_rejected_witness :
    addParameter (gcmUpdate (createWithMode Mode.gcm Direction.encrypt [1])
      [5]).2.2 kCCParameterAuthData [8] =
      (Status.callSequenceError,
        (gcmUpdate (createWithMode Mode.gcm Direction.encrypt [1]) [5]).2.2) :=
  addParameter_processing_rejected _ kCCParameterAuthData [8] (by decide)
    (by decide)

/-- C4: a GetParameter call whose caller-provided capacity is smaller than
the requested value's length returns BufferTooSmall, writes the required
length into the size out-parameter and writes nothing into the data buffer. -/
theorem getParameter_bufferTooSmall
    (c : Cryptor) (data : List Nat) (size : Nat)
    (hm : c.mode.isAEAD = true) (hd : c.direction ≠ Direction.decrypt)
    (hp : c.phase = Phase.finalized)
    (hsz : size < c.tagBuf.length) :
    getParameter c kCCParameterAuthTag data size =
      (Status.bufferTooSmall, data, c.tagBuf.length) := by
  simp [getParameter, hm, hd, hp, hsz]

/-- Witness for C4: requesting the 16-byte tag of a finalized GCM encrypt
cryptor with capacity 4 yields BufferTooSmall, required size 16, data buffer
untouched. -/
theorem getParameter_bufferTooSmall_witness :
    getParameter (gcmEncrypt [1] [2] [3] (List.range 16) 16).2.2.2
      kCCParameterAuthTag [9, 9] 4 = (Status.bufferTooSmall, [9, 9], 16) := by
  have h := getParameter_bufferTooSmall
    (gcmEncrypt [1] [2] [3] (List.range 16) 16).2.2.2 [9, 9] 4 (by decide)
    (by decide) (by decide) (by decide)
  rw [h]
  decide

/-- C3: a matching AEAD decrypt sequence over the ciphertext and tag produced
by an encrypt sequence (same key, IV, AAD, plaintext) reports success from
GCMFinalize, while flipping any single bit of the ciphertext, of the AAD, or
of the tag makes GCMFinalize on decrypt report an authentication failure. -/
theorem gcm_encrypt_decrypt_verify
    (key iv aad pt : List Nat) (tagLen : Nat)
    (st : Status × Status × Status × Status) (ct tag : List Nat) (cOut : Cryptor)
    (hpt : ∀ v ∈ pt, v < 256) (haad : ∀ v ∈ aad, v < 256)
    (h12 : 12 ≤ tagLen) (h16 : tagLen ≤ 16)
    (henc : gcmEncrypt key iv aad pt tagLen = (st, ct, tag, cOut)) :
    gcmDecryptVerify key iv aad ct tag tagLen = Status.success ∧
    (∀ i b, i < ct.length → b < 8 →
      gcmDecryptVerify key iv aad (flipBit ct i b) tag tagLen =
        Status.authenticationFailure) ∧
    (∀ i b, i < aad.length → b < 8 →
      gcmDecryptVerify key iv (flipBit aad i b) ct tag tagLen =
        Status.authenticationFailure) ∧
    (∀ i b, i < tag.length → b < 8 →
      gcmDecryptVerify key iv aad ct (flipBit tag i b) tagLen =
        Status.authenticationFailure) := by
  have heval := gcmEncrypt_eval key iv aad pt tagLen h12 h16
  have hcomp := henc.symm.trans heval
  have hct : ct = gcmCtBytes key iv pt := congrArg (fun x => x.2.1) hcomp
  have htag : tag = gcmTag key iv aad (gcmCtBytes key iv pt) tagLen :=
    congrArg (fun x => x.2.2.1) hcomp
  subst hct
  subst htag
  have hctb : ∀ v ∈ gcmCtBytes key iv pt, v < 256 := gcmCtBytes_mem_lt key iv pt hpt
  refine ⟨?_, ?_, ?_, ?_⟩
  · rw [gcmDecryptVerify_eval _ _ _ _ _ _ h12 h16]
    simp [constTimeEq_self]
  · intro i b hi hb
    rw [gcmDecryptVerify_eval _ _ _ _ _ _ h12 h16]
    have hne := gcmTag_flip_ct_ne key iv aad (gcmCtBytes key iv pt) tagLen i b
      hctb hi hb (by omega)
    simp [constTimeEq_false_of_ne _ _ hne]
  · intro i b hi hb
    rw [gcmDecryptVerify_eval _ _ _ _ _ _ h12 h16]
    have hne := gcmTag_flip_aad_ne key iv aad (gcmCtBytes key iv pt) tagLen i b
      haad hi hb (by omega)
    simp [constTimeEq_false_of_ne _ _ hne]
  · intro i b hi hb
    rw [gcmDecryptVerify_eval _ _ _ _ _ _ h12 h16]
    have hne : gcmTag key iv aad (gcmCtBytes key iv pt) tagLen ≠
        flipBit (gcmTag key iv aad (gcmCtBytes key iv pt) tagLen) i b :=
      Ne.symm (flipBit_ne _ i b hi)
    simp [constTimeEq_false_of_ne _ _ hne]

/-- Witness for C3: a concrete encrypt sequence round-trips through decrypt
verification, and one concrete bit flip in the ciphertext is rejected. -/
theorem gcm_encrypt_decrypt_verify_witness :
    gcmDecryptVerify [1] [2] [3, 4] (gcmEncrypt [1] [2] [3, 4] [10, 20] 16).2.1
      (gcmEncrypt [1] [2] [3, 4] [10, 20] 16).2.2.1 16 = Status.success ∧
    gcmDecryptVerify [1] [2] [3, 4]
      (flipBit (gcmEncrypt [1] [2] [3, 4] [10, 20] 16).2.1 0 0)
      (gcmEncrypt [1] [2] [3, 4] [10, 20] 16).2.2.1 16 =
      Status.authenticationFailure := by
  have h := gcm_encrypt_decrypt_verify [1] [2] [3, 4] [10, 20] 16
    (gcmEncrypt [1] [2] [3, 4] [10, 20] 16).1
    (gcmEncrypt [1] [2] [3, 4] [10, 20] 16).2.1
    (gcmEncrypt [1] [2] [3, 4] [10, 20] 16).2.2.1
    (gcmEncrypt [1] [2] [3, 4] [10, 20] 16).2.2.2
    (by decide) (by decide) (by decide) (by decide) rfl
  exact ⟨h.1, h.2.1 0 0 (by decide) (by decide)⟩

/-- C6: GCMReset, from any phase of a GCM cryptor, returns the state that
mode-creation left (key material retained, accumulators and counters
cleared), is idempotent, and an identical IV/AAD/plaintext sequence after the
reset reproduces exactly what a fresh identically created cryptor produces —
in particular the identical tag. -/
theorem gcmReset_spec (c : Cryptor) (hm : c.mode = Mode.gcm) :
    (gcmReset c).1 = Status.success ∧
    (gcmReset c).2 = createWithMode c.mode c.direction c.key ∧
    gcmReset (gcmReset c).2 = gcmReset c ∧
    ∀ iv aad pt tagArg tagLen,
      runGcmSequence (gcmReset c).2 iv aad pt tagArg tagLen =
        runGcmSequence (createWithMode c.mode c.direction c.key) iv aad pt
          tagArg tagLen := by
  have hA : c.mode.isAEAD = true := by rw [hm]; rfl
  have h1 : gcmReset c = (Status.success, createWithMode c.mode c.direction c.key) := by
    simp [gcmReset, hA]
  refine ⟨by rw [h1], by rw [h1], ?_,
    fun iv aad pt tagArg tagLen => by rw [h1]⟩
  rw [h1]
  simp [gcmReset, createWithMode, hA]

/-- Witness for C6 on a GCM cryptor that has already processed a data block. -/
theorem gcmReset_spec_witness :
    (gcmReset (gcmUpdate (createWithMode Mode.gcm Direction.both [2, 3])
      [7]).2.2).1 = Status.success ∧
    (gcmReset (gcmUpdate (createWithMode Mode.gcm Direction.both [2, 3])
      [7]).2.2).2 = createWithMode Mode.gcm Direction.both [2, 3] ∧
    gcmReset (gcmReset (gcmUpdate (createWithMode Mode.gcm Direction.both [2, 3])
      [7]).2.2).2 =
      gcmReset (gcmUpdate (createWithMode Mode.gcm Direction.both [2, 3])
        [7]).2.2 := by
  have h := gcmReset_spec
    (gcmUpdate (createWithMode Mode.gcm Direction.both [2, 3]) [7]).2.2
    (by decide)
  exact ⟨h.1, by rw [h.2.1]; decide, h.2.2.1⟩

/-- C8: the AEAD pipeline is deterministic — two cryptors created identically
(same mode, direction, key) and fed the same IV, AAD and plaintext produce
identical sequence results, in particular the same authentication tag. -/
theorem gcm_deterministic (c1 c2 : Cryptor) (m : Mode) (d : Direction)
    (key iv aad pt tagArg : List Nat) (tagLen : Nat)
    (h1 : c1 = createWithMode m d key) (h2 : c2 = createWithMode m d key) :
    runGcmSequence c1 iv aad pt tagArg tagLen =
      runGcmSequence c2 iv aad pt tagArg tagLen ∧
    (runGcmSequence c1 iv aad pt tagArg tagLen).2.2.1 =
      (runGcmSequence c2 iv aad pt tagArg tagLen).2.2.1 := by
  subst h1
  subst h2
  exact ⟨rfl, rfl⟩

/-- Witness for C8 with two identically created concrete cryptors. -/
theorem gcm_deterministic_witness :
    runGcmSequence (createWithMode Mode.gcm Direction.encrypt [1]) [2] [3] [4]
      (List.replicate 16 0) 16 =
      runGcmSequence (createWithMode Mode.gcm Direction.encrypt [1]) [2] [3] [4]
        (List.replicate 16 0) 16 :=
  (gcm_deterministic (createWithMode Mode.gcm Direction.encrypt [1])
    (createWithMode Mode.gcm Direction.encrypt [1]) Mode.gcm Direction.encrypt
    [1] [2] [3] [4] (List.replicate 16 0) 16 rfl rfl).1

/-- C9: the tag comparison of GCMFinalize on decrypt is the dedicated
constant-time routine — its step count depends only on the buffer lengths
(never on where or whether the contents differ), it decides exactly buffer
equality, and the decrypt finalize status is determined by that comparison
alone. -/
theorem constTime_tag_comparison :
    (∀ a b : List Nat, (ctDiffSteps a b).2 = min a.length b.length) ∧
    (∀ a b : List Nat, constTimeEq a b = true ↔ a = b) ∧
    (∀ (c : Cryptor) (tag : List Nat) (tagLen : Nat),
      c.mode = Mode.gcm → c.direction = Direction.decrypt →
      c.phase ≠ Phase.finalized → 12 ≤ tagLen → tagLen ≤ 16 →
      (gcmFinalize c tag tagLen).1 =
        (if constTimeEq (computeTag c tagLen) tag then Status.success
         else Status.authenticationFailure)) := by
  refine ⟨ctDiffSteps_steps, constTimeEq_iff, ?_⟩
  intro c tag tagLen hm hd hp h12 h16
  have ht : ¬(tagLen < 12 ∨ 16 < tagLen) := by omega
  simp [gcmFinalize, hm, hd, hp, ht]

/-- Witness for C9: the comparison walks all three bytes of two buffers that
differ in the middle, and a concrete decrypt finalize status equals the
comparison outcome. -/
theorem constTime_tag_comparison_witness :
    (ctDiffSteps [1, 2, 3] [1, 9, 3]).2 = 3 ∧
    (gcmFinalize (createWithMode Mode.gcm Direction.decrypt [5])
      (List.replicate 16 7) 16).1 =
      (if constTimeEq (computeTag (createWithMode Mode.gcm Direction.decrypt [5]) 16)
        (List.replicate 16 7) then Status.success
       else Status.authenticationFailure) := by
  refine ⟨?_, constTime_tag_comparison.2.2
    (createWithMode Mode.gcm Direction.decrypt [5]) (List.replicate 16 7) 16
    rfl rfl (by decide) (by decide) (by decide)⟩
  have h := constTime_tag_comparison.1 [1, 2, 3] [1, 9, 3]
  simpa using h

end CCWrapper
